import Mathlib

/-!
Verification of the icu-features repository: a shallow embedding of the
feature-name generator and loader from icu_features/load.py, the split
predicates, and the diagnosis-block mapping pipeline from
icu_features/icd_codes.py, together with theorems settling the frozen
claims about the natural-language specification.
-/

namespace IcuFeatures

/-! ## Constants from icu_features/constants.py -/

def HORIZONS : List Nat := [8, 24]

def CONTINUOUS_FEATURES : List String :=
  ["mean", "std", "slope", "fraction_nonnull", "all_missing", "min", "max"]

def CATEGORICAL_FEATURES : List String := ["mode", "num_nonmissing"]

def TREATMENT_INDICATOR_FEATURES : List String := ["num", "any"]

def TREATMENT_CONTINUOUS_FEATURES : List String := ["rate"]

/-! ## The variable reference

One row of the tab-separated variable reference table read by
icu_features.load.features: VariableTag, VariableType, DataType and the
nullable boolean LogTransform column (null is modelled as none). -/

structure VarRow where
  tag : String
  variableType : String
  dataType : String
  logTransform : Option Bool
deriving DecidableEq

inductive FeatErr where
  | unknownDataType : String → FeatErr
  | unknownVariables : List String → FeatErr
deriving DecidableEq

/-- Cross product of feature kinds and horizons as in the list
comprehensions of icu_features.load.features: the feature kind is the
outer loop and the horizon the inner loop. -/
def crossNames (v : String) (fs : List String) (hs : List Nat) : List String :=
  fs.flatMap (fun f => hs.map (fun h => v ++ "_" ++ f ++ "_h" ++ toString h))

/-- The display name of a reference row: prefixed with log_ exactly when
the nullable LogTransform column holds True (load.py lines 198-199). -/
def displayName (row : VarRow) : String :=
  if row.logTransform = some true then "log_" ++ row.tag else row.tag

/-- The names emitted for a single reference row by the branch on
VariableType and DataType in icu_features.load.features (lines 198-235). -/
def rowNames (cat cf ti tc : List String) (hs : List Nat) (row : VarRow) :
    Except FeatErr (List String) :=
  if row.variableType = "static" then
    Except.ok [displayName row]
  else if row.dataType = "continuous" then
    Except.ok ([displayName row ++ "_ffilled", displayName row ++ "_missing",
      displayName row ++ "_sq_ffilled"] ++ crossNames (displayName row) cf hs)
  else if row.dataType = "categorical" then
    Except.ok ([displayName row] ++ crossNames (displayName row) cat hs)
  else if row.dataType = "treatment_ind" then
    Except.ok ([displayName row] ++ crossNames (displayName row) ti hs)
  else if row.dataType = "treatment_cont" then
    Except.ok (crossNames (displayName row) tc hs)
  else
    Except.error (FeatErr.unknownDataType row.dataType)

/-- The scan over the variable reference in icu_features.load.features.
When an allow-list is present the row is skipped unless its tag is in the
list, and the first occurrence of the tag is consumed (python
list.remove). Returns the emitted names together with the remaining
allow-list. -/
def featuresLoop (cat cf ti tc : List String) (hs : List Nat) :
    List VarRow → Option (List String) →
    Except FeatErr (List String × Option (List String))
  | [], vars => Except.ok ([], vars)
  | row :: rest, none =>
    match rowNames cat cf ti tc hs row with
    | Except.error e => Except.error e
    | Except.ok ns =>
      match featuresLoop cat cf ti tc hs rest none with
      | Except.error e => Except.error e
      | Except.ok (ms, vars) => Except.ok (ns ++ ms, vars)
  | row :: rest, some vs =>
    if row.tag ∈ vs then
      match rowNames cat cf ti tc hs row with
      | Except.error e => Except.error e
      | Except.ok ns =>
        match featuresLoop cat cf ti tc hs rest (some (vs.erase row.tag)) with
        | Except.error e => Except.error e
        | Except.ok (ms, vars) => Except.ok (ns ++ ms, vars)
    else
      featuresLoop cat cf ti tc hs rest (some vs)

/-- The feature-name generator icu_features.load.features. The variable
reference, read from a TSV file in the python code, is passed as the
argument ref; the optional feature-kind lists and horizons default to the
constants; the trailing time_hours handling and the leftover allow-list
check mirror lines 237-243 of load.py. -/
def features (ref : List VarRow) (vars : Option (List String))
    (categorical continuous treatInd treatCont : Option (List String))
    (horizons : Option (List Nat)) : Except FeatErr (List String) :=
  let cf := continuous.getD CONTINUOUS_FEATURES
  let cat := categorical.getD CATEGORICAL_FEATURES
  let ti := treatInd.getD TREATMENT_INDICATOR_FEATURES
  let tc := treatCont.getD TREATMENT_CONTINUOUS_FEATURES
  let hs := horizons.getD HORIZONS
  match featuresLoop cat cf ti tc hs ref vars with
  | Except.error e => Except.error e
  | Except.ok (fs, vars) =>
    match vars with
    | none => Except.ok (fs ++ ["time_hours"])
    | some vs =>
      if "time_hours" ∈ vs then
        let fs2 := fs ++ ["time_hours"]
        let vs2 := vs.erase "time_hours"
        if vs2 = [] then Except.ok fs2
        else Except.error (FeatErr.unknownVariables vs2)
      else
        if vs = [] then Except.ok fs
        else Except.error (FeatErr.unknownVariables vs)

/-! ## Validity predicates for reference rows -/

def knownDataTypes : List String :=
  ["continuous", "categorical", "treatment_ind", "treatment_cont"]

/-- A reference row that the branch in features can handle without
raising the unknown-data-type error. -/
def validRow (r : VarRow) : Prop :=
  r.variableType = "static" ∨ r.dataType ∈ knownDataTypes

instance (r : VarRow) : Decidable (validRow r) := by
  unfold validRow; infer_instance

def validRef (ref : List VarRow) : Prop := ∀ r ∈ ref, validRow r

instance (ref : List VarRow) : Decidable (validRef ref) := by
  unfold validRef; infer_instance

def refTags (ref : List VarRow) : List String := ref.map (fun r => r.tag)

/-- The allow-list entries that the scan of features can never consume:
neither a VariableTag of the reference nor the special time_hours name. -/
def badVars (ref : List VarRow) (vs : List String) : List String :=
  vs.filter (fun v => decide (v ∉ refTags ref ∧ v ≠ "time_hours"))

/-! ## Concrete reference rows used in the claim instances -/

def ageRow : VarRow := ⟨"age", "static", "continuous", some false⟩

def hrRow : VarRow := ⟨"hr", "dynamic", "continuous", some false⟩

def c1Ref : List VarRow := [ageRow, hrRow]

/-! ## Split predicates of icu_features.load.load (lines 84-95)

The per-patient hash column patient_id_hash is a float in the half-open
interval from 0 to 1; floats are modelled as rationals. Each split string
adds a comparison against the constants 0.7 and 0.85. -/

def trainFilter (h : ℚ) : Bool := decide (h < 7/10)

def valFilter (h : ℚ) : Bool := decide (7/10 ≤ h) && decide (h < 17/20)

def testFilter (h : ℚ) : Bool := decide (17/20 ≤ h)

def trainValFilter (h : ℚ) : Bool := decide (h < 17/20)

/-- The predicate selected by the split argument; an unrecognised
non-null split string yields none, which load turns into the invalid
split error. -/
def splitFilter : String → Option (ℚ → Bool)
  | "train" => some trainFilter
  | "val" => some valFilter
  | "test" => some testFilter
  | "train_val" => some trainValFilter
  | _ => none

/-! ## The loader icu_features.load.load

A cell of the parquet-backed feature table is null, a number or a
string; a row is an association list from column names to cells, and a
missing column reads as null. -/

inductive Cell where
  | null : Cell
  | num : ℚ → Cell
  | str : String → Cell
deriving DecidableEq

structure Row where
  cells : List (String × Cell)
deriving DecidableEq

def Row.get (r : Row) (c : String) : Cell :=
  (r.cells.lookup c).getD Cell.null

/-- Reading only the requested columns from a row, as the column
projection of ParquetDataset.read(columns=...). -/
def Row.restrict (r : Row) (cs : List String) : Row :=
  ⟨cs.map (fun c => (c, r.get c))⟩

structure DFrame where
  cols : List String
  rows : List Row
deriving DecidableEq

structure LoadResult where
  X : DFrame
  y : List Cell
  others : List (List Cell)
deriving DecidableEq

inductive LoadErr where
  | invalidSplit : String → LoadErr
  | featErr : FeatErr → LoadErr
  | assertFailed : LoadErr
deriving DecidableEq

/-- Resolution of the split argument: None means no split restriction,
an unknown split string is the ValueError of load.py line 95. -/
def splitResolve : Option String → Except LoadErr (Option (ℚ → Bool))
  | none => Except.ok none
  | some s =>
    match splitFilter s with
    | some p => Except.ok (some p)
    | none => Except.error (LoadErr.invalidSplit s)

/-- The row predicate of load.py lines 82-93: the outcome column is not
null, and when a split is given the patient hash column satisfies the
split predicate (a non-numeric hash cell fails the comparison, as a null
comparison does under pyarrow). -/
def rowFilter (outcome : String) (sp : Option (ℚ → Bool)) (r : Row) : Bool :=
  decide (r.get outcome ≠ Cell.null) &&
    match sp with
    | none => true
    | some p =>
      match r.get "patient_id_hash" with
      | Cell.num q => p q
      | _ => false

/-- Total boolean comparison on cells used only to give the canonical
row sort a concrete total order on the key columns. -/
def cellLT : Cell → Cell → Bool
  | Cell.null, Cell.null => false
  | Cell.null, _ => true
  | Cell.num _, Cell.null => false
  | Cell.num a, Cell.num b => decide (a < b)
  | Cell.num _, Cell.str _ => true
  | Cell.str _, Cell.null => false
  | Cell.str _, Cell.num _ => false
  | Cell.str a, Cell.str b => decide (a.data.map Char.toNat < b.data.map Char.toNat)

/-- Lexicographic order on the canonical sort key (dataset, stay_id_hash,
time_hours) of load.py line 120. -/
def rowLE (a b : Row) : Bool :=
  cellLT (a.get "dataset") (b.get "dataset") ||
    (a.get "dataset" = b.get "dataset" &&
      (cellLT (a.get "stay_id_hash") (b.get "stay_id_hash") ||
        (a.get "stay_id_hash" = b.get "stay_id_hash" &&
          !(cellLT (b.get "time_hours") (a.get "time_hours")))))

/-- The loader icu_features.load.load. Each source dataset is a list of
rows; reading from all sources concatenates them. The steps mirror
load.py: resolve the split filter, resolve the column list through
features, extend it with the outcome, identifier and sort columns and
the extra other_columns, filter and project the rows, sort them
canonically, extract the outcome vector and check it has no missing
values, and finally return the projection onto exactly the generator
columns together with the outcome vector and the other column vectors. -/
def load (ref : List VarRow) (tables : List (List Row)) (outcome : String)
    (split : Option String) (vars : Option (List String))
    (categorical continuous treatInd treatCont : Option (List String))
    (horizons : Option (List Nat)) (otherColumns : Option (List String)) :
    Except LoadErr LoadResult :=
  let hs := horizons.getD HORIZONS
  match splitResolve split with
  | Except.error e => Except.error e
  | Except.ok sp =>
    match features ref vars categorical continuous treatInd treatCont (some hs) with
    | Except.error e => Except.error (LoadErr.featErr e)
    | Except.ok columns =>
      let oc := otherColumns.getD []
      let ctl1 := columns ++ [outcome, "dataset", "stay_id_hash"]
      let ctl2 := if "time_hours" ∈ columns then ctl1 else ctl1 ++ ["time_hours"]
      let ctl := ctl2 ++ oc.filter (fun c => decide (c ∉ ctl2))
      let rows0 := (tables.flatMap (fun t => t)).filter (rowFilter outcome sp)
      let rows1 := rows0.map (fun r => r.restrict ctl)
      let rows := List.insertionSort (fun a b => rowLE a b = true) rows1
      let ys := rows.map (fun r => r.get outcome)
      if ys.all (fun c => decide (c ≠ Cell.null)) then
        Except.ok ⟨⟨columns, rows.map (fun r => r.restrict columns)⟩, ys,
          oc.map (fun c => rows.map (fun r => r.get c))⟩
      else
        Except.error LoadErr.assertFailed

/-! ## Mutable-list model of the allow-list bookkeeping

To state the frame property that features never mutates the caller list,
the python lists of strings live in a small heap of cells addressed by
allocation order. variables.copy() allocates a fresh cell and the
list.remove calls write only to that cell. -/

abbrev Heap := List (List String)

def Heap.read (h : Heap) (a : Nat) : List String := (h[a]?).getD []

def Heap.write (h : Heap) (a : Nat) (v : List String) : Heap := h.set a v

def Heap.alloc (h : Heap) (v : List String) : Nat × Heap := (h.length, h ++ [v])

def Heap.size (h : Heap) : Nat := h.length

/-- The scan of features with the allow-list held in heap cell b,
mirroring the in-place list.remove of load.py line 196. -/
def featuresLoopH (cat cf ti tc : List String) (hs : List Nat) :
    List VarRow → Option Nat → Heap → Except FeatErr (List String) × Heap
  | [], _, h => (Except.ok [], h)
  | row :: rest, none, h =>
    match rowNames cat cf ti tc hs row with
    | Except.error e => (Except.error e, h)
    | Except.ok ns =>
      let p := featuresLoopH cat cf ti tc hs rest none h
      (p.1.map (fun ms => ns ++ ms), p.2)
  | row :: rest, some b, h =>
    if row.tag ∈ h.read b then
      let h1 := h.write b ((h.read b).erase row.tag)
      match rowNames cat cf ti tc hs row with
      | Except.error e => (Except.error e, h1)
      | Except.ok ns =>
        let p := featuresLoopH cat cf ti tc hs rest (some b) h1
        (p.1.map (fun ms => ns ++ ms), p.2)
    else
      featuresLoopH cat cf ti tc hs rest (some b) h

/-- The feature-name generator over the heap model: the caller passes the
address of its variables list, features copies it into a fresh cell
(load.py line 187) and all consume-and-check bookkeeping operates on the
copy. The final heap is returned both on success and on error. -/
def featuresH (ref : List VarRow) (varsAddr : Option Nat)
    (categorical continuous treatInd treatCont : Option (List String))
    (horizons : Option (List Nat)) (h : Heap) :
    Except FeatErr (List String) × Heap :=
  let cf := continuous.getD CONTINUOUS_FEATURES
  let cat := categorical.getD CATEGORICAL_FEATURES
  let ti := treatInd.getD TREATMENT_INDICATOR_FEATURES
  let tc := treatCont.getD TREATMENT_CONTINUOUS_FEATURES
  let hs := horizons.getD HORIZONS
  match varsAddr with
  | none =>
    let p := featuresLoopH cat cf ti tc hs ref none h
    (p.1.map (fun fs => fs ++ ["time_hours"]), p.2)
  | some a =>
    let q := h.alloc (h.read a)
    let p := featuresLoopH cat cf ti tc hs ref (some q.1) q.2
    match p.1 with
    | Except.error e => (Except.error e, p.2)
    | Except.ok fs =>
      let vs := p.2.read q.1
      if "time_hours" ∈ vs then
        let h3 := p.2.write q.1 (vs.erase "time_hours")
        let vs2 := h3.read q.1
        if vs2 = [] then (Except.ok (fs ++ ["time_hours"]), h3)
        else (Except.error (FeatErr.unknownVariables vs2), h3)
      else
        if vs = [] then (Except.ok fs, p.2)
        else (Except.error (FeatErr.unknownVariables vs), p.2)

/-! ## Diagnosis-code mapping from icu_features/icd_codes.py

The external icdmappings Mapper is a lookup table treated behind a
single operation map(code, source, target) returning an optional code. -/

structure Mapper where
  map : String → String → String → Option String

/-- icd_codes.icd10_blocks: a direct ICD10-to-block lookup, with the
python or-with-empty-string fallback turning a missing result into the
empty string. -/
def icd10_blocks (m : Mapper) (x : String) : String :=
  (m.map x "icd10" "block").getD ""

/-- Removal of all dot characters from a code, the python
x.replace(".", "") of icd_codes.py line 28. -/
def dedot (x : String) : String := ⟨x.data.filter (fun c => decide (c ≠ '.'))⟩

/-- icd_codes.icd9_blocks: map ICD9 to ICD10, retry with the dots
stripped when the first lookup misses, then map the ICD10 code to a
block; the empty string results from any remaining miss. -/
def icd9_blocks (m : Mapper) (x : String) : String :=
  let icd10code := m.map x "icd9" "icd10"
  let icd10code2 := if icd10code = none then m.map (dedot x) "icd9" "icd10" else icd10code
  match icd10code2 with
  | none => ""
  | some c => (m.map c "icd10" "block").getD ""

/-- Boolean code-point comparison of char lists, the string order that
python sorted applies to the mapped block codes. -/
def charListLe : List Char → List Char → Bool
  | [], _ => true
  | _ :: _, [] => false
  | c :: cs, d :: ds =>
    if c.toNat = d.toNat then charListLe cs ds else decide (c.toNat < d.toNat)

def strLe (a b : String) : Bool := charListLe a.data b.data

/-- The per-list pipeline of icd_codes.py lines 74-81: map every raw
code, deduplicate (python set), drop empty strings and sort. -/
def blockList (f : String → String) (s : List String) : List String :=
  List.insertionSort (fun a b => strLe a b = true)
    (((s.map f).dedup).filter (fun z => decide (z ≠ "")))

def icd10BlocksColumn (m : Mapper) (s : List String) : List String :=
  blockList (icd10_blocks m) s

def icd9BlocksColumn (m : Mapper) (s : List String) : List String :=
  blockList (icd9_blocks m) s

/-- The combined per-row icd10_blocks column after the concat_list of
icd_codes.py line 92: the ICD10-origin block list followed by the
ICD9-origin block list. -/
def combinedBlocks (m : Mapper) (l10 l9 : List String) : List String :=
  icd10BlocksColumn m l10 ++ icd9BlocksColumn m l9

/-- Modelled from the spec: icd9_to_block as described in section 4.3,
map ICD9 to ICD10 retrying without punctuation if the first lookup
fails, then map ICD10 to block, returning the empty string on any
lookup miss. Stated separately from icd9_blocks to compare the code
against the specification text. -/
def icd9_to_block_spec (m : Mapper) (x : String) : String :=
  match (m.map x "icd9" "icd10").orElse (fun _ => m.map (dedot x) "icd9" "icd10") with
  | none => ""
  | some c => (m.map c "icd10" "block").getD ""

/-! ## Concrete instances used to settle individual claims -/

/-- A static reference row whose DataType is not one of the four known
kinds. -/
def staticBogusRow : VarRow := ⟨"age", "static", "bogus", none⟩

/-- A non-static reference row whose DataType is not one of the four
known kinds. -/
def dynBogusRow : VarRow := ⟨"hr", "dynamic", "bogus", none⟩

/-- A reference row whose tag collides with the special time_hours
feature name. -/
def timeHoursRow : VarRow := ⟨"time_hours", "static", "continuous", none⟩

/-- A concrete mapping table on which an ICD10-origin code and an
ICD9-origin code land on the same block B1. -/
def mEx : Mapper :=
  ⟨fun code src tgt =>
    if src = "icd10" ∧ tgt = "block" ∧ code = "A00" then some "B1"
    else if src = "icd9" ∧ tgt = "icd10" ∧ code = "001" then some "A00"
    else none⟩

/-- A single feature-table row with a static age variable, a non-null
outcome column y and the identifier, sort and hash columns. -/
def sampleRow : Row :=
  ⟨[("age", Cell.num 30), ("y", Cell.num 0), ("dataset", Cell.str "e"),
    ("stay_id_hash", Cell.num 1), ("time_hours", Cell.num 0),
    ("patient_id_hash", Cell.num 0)]⟩

/-- The result of the sample call to load used as the witness input for
the column contract. -/
def sampleOut : LoadResult :=
  (load [ageRow] [[sampleRow]] "y" none none none none none none none none).toOption.getD
    ⟨⟨[], []⟩, [], []⟩

/-- The heap of one cell holding the caller allow-list for the frame
property witness. -/
def sampleHeap : Heap := [["age"]]

end IcuFeatures

namespace IcuFeatures

/-! ## Helper lemmas about rowNames and the reference scan -/

theorem rowNames_ok_of_valid (cat cf ti tc : List String) (hs : List Nat) (row : VarRow)
    (h : validRow row) : ∃ ns, rowNames cat cf ti tc hs row = Except.ok ns := by
  unfold rowNames
  split_ifs with h1 h2 h3 h4 h5
  · exact ⟨_, rfl⟩
  · exact ⟨_, rfl⟩
  · exact ⟨_, rfl⟩
  · exact ⟨_, rfl⟩
  · exact ⟨_, rfl⟩
  · exfalso
    rcases h with h | h
    · exact h1 h
    · simp only [knownDataTypes, List.mem_cons, List.not_mem_nil, or_false] at h
      tauto

theorem rowNames_err_of_invalid (cat cf ti tc : List String) (hs : List Nat) (row : VarRow)
    (h : ¬ validRow row) :
    rowNames cat cf ti tc hs row = Except.error (FeatErr.unknownDataType row.dataType) := by
  unfold validRow at h
  push_neg at h
  obtain ⟨h1, h2⟩ := h
  simp only [knownDataTypes, List.mem_cons, List.not_mem_nil, or_false, not_or] at h2
  unfold rowNames
  rw [if_neg h1, if_neg h2.1, if_neg h2.2.1, if_neg h2.2.2.1, if_neg h2.2.2.2]

/-- Claim C1: with a reference holding the static variable age and the
continuous variable hr without log transform, the generator called with
horizons [8, 24] and continuous features mean and std returns exactly the
nine names in reference-outer, feature-middle, horizon-inner order. -/
theorem c1_feature_names :
    features c1Ref none none (some ["mean", "std"]) none none (some [8, 24]) =
      Except.ok ["age", "hr_ffilled", "hr_missing", "hr_sq_ffilled",
        "hr_mean_h8", "hr_mean_h24", "hr_std_h8", "hr_std_h24", "time_hours"] := by
  rfl

/-- Claim C3: the three split predicates partition the hash interval
from 0 to 1: each hash value satisfies exactly one of train, val, test,
and train_val holds exactly when train or val does. -/
theorem split_partition (h : ℚ) (h0 : 0 ≤ h) (h1 : h < 1) :
    ([trainFilter h, valFilter h, testFilter h].count true = 1) ∧
      trainValFilter h = (trainFilter h || valFilter h) := by
  unfold trainFilter valFilter testFilter trainValFilter
  by_cases c7 : h < 7/10
  · have c85 : h < 17/20 := lt_trans c7 (by norm_num)
    simp [c7, c85, not_le.mpr c7, not_le.mpr c85]
  · by_cases c85 : h < 17/20
    · simp [c7, c85, not_lt.mp c7, not_le.mpr c85]
    · simp [c7, c85, not_lt.mp c7, not_lt.mp c85]

/-- Witness for split_partition at the boundary hash value 0. -/
theorem split_partition_witness :
    ([trainFilter 0, valFilter 0, testFilter 0].count true = 1) ∧
      trainValFilter 0 = (trainFilter 0 || valFilter 0) :=
  split_partition 0 (le_refl 0) zero_lt_one

/-- On a list without duplicates, membership of the head tag in the
cons of reference tags can be split off the filter predicate. -/
theorem badFilter_cons (t : String) (ts : List String) (vs : List String) :
    (vs.filter (fun v => decide (v ∉ t :: ts))) =
      (vs.filter (fun v => v ≠ t)).filter (fun v => decide (v ∉ ts)) := by
  rw [List.filter_filter]
  refine List.filter_congr ?_
  intro v _
  by_cases h1 : v = t <;> by_cases h2 : v ∈ ts <;> simp [h1, h2]

/-- The scan over the reference consumes from a duplicate-free allow
list exactly the entries that occur as reference tags, leaving the
others in order. -/
theorem featuresLoop_filter (cat cf ti tc : List String) (hs : List Nat) :
    ∀ (ref : List VarRow) (vs : List String), vs.Nodup → validRef ref →
      ∃ fs, featuresLoop cat cf ti tc hs ref (some vs) =
        Except.ok (fs, some (vs.filter (fun v => decide (v ∉ refTags ref)))) := by
  intro ref
  induction ref with
  | nil =>
    intro vs _ _
    refine ⟨[], ?_⟩
    simp [featuresLoop, refTags]
  | cons row rest ih =>
    intro vs hnd hv
    by_cases hm : row.tag ∈ vs
    · obtain ⟨ns, hns⟩ := rowNames_ok_of_valid cat cf ti tc hs row (hv row (by simp))
      obtain ⟨fs, hfs⟩ :=
        ih (vs.erase row.tag) (hnd.erase _) (fun r hr => hv r (by simp [hr]))
      refine ⟨ns ++ fs, ?_⟩
      have herase : vs.erase row.tag = vs.filter (fun v => v ≠ row.tag) := by
        rw [hnd.erase_eq_filter]
        exact List.filter_congr (fun v _ => by by_cases h : v = row.tag <;> simp [h])
      simp only [featuresLoop, if_pos hm, hns, hfs]
      rw [show refTags (row :: rest) = row.tag :: refTags rest from rfl,
        badFilter_cons row.tag (refTags rest) vs, ← herase]
    · obtain ⟨fs, hfs⟩ := ih vs hnd (fun r hr => hv r (by simp [hr]))
      refine ⟨fs, ?_⟩
      simp only [featuresLoop, if_neg hm, hfs]
      have : vs.filter (fun v => decide (v ∉ refTags rest)) =
          vs.filter (fun v => decide (v ∉ refTags (row :: rest))) := by
        refine List.filter_congr ?_
        intro v hvv
        have hne : v ≠ row.tag := fun he => hm (he ▸ hvv)
        rw [show refTags (row :: rest) = row.tag :: refTags rest from rfl]
        by_cases h2 : v ∈ refTags rest <;> simp [h2, hne]
      rw [this]

/-- The outcome of features on a duplicate-free allow list over a valid
reference: the unknown-variables error is raised exactly when some entry
is neither a reference tag nor time_hours, and then the error payload is
exactly the list of those entries. -/
theorem features_allowlist_spec (ref : List VarRow) (vs : List String)
    (cat cf ti tc : Option (List String)) (hs : Option (List Nat))
    (hnd : vs.Nodup) (hv : validRef ref) :
    (badVars ref vs ≠ [] →
      features ref (some vs) cat cf ti tc hs =
        Except.error (FeatErr.unknownVariables (badVars ref vs))) ∧
    (badVars ref vs = [] →
      ∃ fs, features ref (some vs) cat cf ti tc hs = Except.ok fs) := by
  obtain ⟨fs, hloop⟩ :=
    featuresLoop_filter (cat.getD CATEGORICAL_FEATURES) (cf.getD CONTINUOUS_FEATURES)
      (ti.getD TREATMENT_INDICATOR_FEATURES) (tc.getD TREATMENT_CONTINUOUS_FEATURES)
      (hs.getD HORIZONS) ref vs hnd hv
  have hfeat : features ref (some vs) cat cf ti tc hs =
      (let L := vs.filter (fun v => decide (v ∉ refTags ref))
      if "time_hours" ∈ L then
        if L.erase "time_hours" = [] then Except.ok (fs ++ ["time_hours"])
        else Except.error (FeatErr.unknownVariables (L.erase "time_hours"))
      else
        if L = [] then Except.ok fs
        else Except.error (FeatErr.unknownVariables L)) := by
    simp only [features]
    rw [hloop]
  set L := vs.filter (fun v => decide (v ∉ refTags ref)) with hL
  have hLnd : L.Nodup := hnd.filter _
  have hbad : badVars ref vs = L.filter (fun v => decide (v ≠ "time_hours")) := by
    rw [hL, List.filter_filter]
    refine List.filter_congr ?_
    intro v _
    by_cases h1 : v ∈ refTags ref <;> by_cases h2 : v = "time_hours" <;> simp [h1, h2]
  by_cases hth : "time_hours" ∈ L
  · have herase : L.erase "time_hours" = badVars ref vs := by
      rw [hbad, hLnd.erase_eq_filter]
      exact List.filter_congr (fun v _ => by by_cases h : v = "time_hours" <;> simp [h])
    constructor
    · intro hne
      rw [hfeat]
      simp only [if_pos hth, herase]
      rw [if_neg hne]
    · intro heq
      rw [hfeat]
      simp only [if_pos hth, herase]
      rw [if_pos heq]
      exact ⟨_, rfl⟩
  · have heq : badVars ref vs = L := by
      rw [hbad]
      refine List.filter_eq_self.mpr ?_
      intro v hvL
      have : v ≠ "time_hours" := fun he => hth (he ▸ hvL)
      simp [this]
    constructor
    · intro hne
      rw [hfeat]
      simp only [if_neg hth]
      rw [heq] at hne ⊢
      rw [if_neg hne]
    · intro he
      rw [hfeat]
      simp only [if_neg hth]
      rw [heq] at he
      rw [if_pos he]
      exact ⟨_, rfl⟩

/-- Claim C4 (amended): over a valid reference and a duplicate-free
allow-list, features raises the unknown-variables validation error
naming exactly the entries that are neither reference tags nor
time_hours whenever at least one such entry exists, and raises no such
error when every entry occurs as a reference tag or equals time_hours.
With duplicate entries the error is raised even for known tags, see the
counterexample and claim C10. -/
theorem c4_unknown_variables (ref : List VarRow) (vs : List String)
    (cat cf ti tc : Option (List String)) (hs : Option (List Nat))
    (hnd : vs.Nodup) (hv : validRef ref) :
    (badVars ref vs ≠ [] →
      features ref (some vs) cat cf ti tc hs =
        Except.error (FeatErr.unknownVariables (badVars ref vs))) ∧
    (badVars ref vs = [] →
      ∃ fs, features ref (some vs) cat cf ti tc hs = Except.ok fs) :=
  features_allowlist_spec ref vs cat cf ti tc hs hnd hv

/-- Witness for c4_unknown_variables: a single unknown tag produces the
unknown-variables error naming it. -/
theorem c4_unknown_variables_witness :
    features [ageRow] (some ["bogus"]) none none none none none =
      Except.error (FeatErr.unknownVariables (badVars [ageRow] ["bogus"])) :=
  (c4_unknown_variables [ageRow] ["bogus"] none none none none none
    (by decide) (by decide)).1 (by decide)

/-- Counterexample to claim C4 as frozen: in the allow-list [age, age]
every entry occurs as a VariableTag of the reference, yet features
raises the unknown-variables error, because only one occurrence is
consumed by the scan. -/
theorem c4_counterexample :
    features [ageRow] (some ["age", "age"]) none none none none none =
      Except.error (FeatErr.unknownVariables ["age"]) := by
  rfl

/-- A reference containing a row that the generator cannot handle makes
the scan without an allow-list fail with the unknown-data-type error. -/
theorem featuresLoop_none_err (cat cf ti tc : List String) (hs : List Nat) :
    ∀ ref : List VarRow, (∃ r ∈ ref, ¬ validRow r) →
      ∃ d, featuresLoop cat cf ti tc hs ref none =
        Except.error (FeatErr.unknownDataType d) := by
  intro ref
  induction ref with
  | nil =>
    rintro ⟨r, hr, _⟩
    exact absurd hr (List.not_mem_nil r)
  | cons row rest ih =>
    rintro ⟨r, hr, hbad⟩
    by_cases hvrow : validRow row
    · obtain ⟨ns, hns⟩ := rowNames_ok_of_valid cat cf ti tc hs row hvrow
      have hrest : ∃ r ∈ rest, ¬ validRow r := by
        rcases List.mem_cons.mp hr with he | he
        · exact absurd hvrow (he ▸ hbad)
        · exact ⟨r, he, hbad⟩
      obtain ⟨d, hd⟩ := ih hrest
      refine ⟨d, ?_⟩
      simp only [featuresLoop, hns, hd]
    · refine ⟨row.dataType, ?_⟩
      simp only [featuresLoop, rowNames_err_of_invalid cat cf ti tc hs row hvrow]

/-- A reference row that the generator cannot handle and that the
allow-list does not skip makes the scan fail with the unknown-data-type
error, under unique reference tags. -/
theorem featuresLoop_some_err (cat cf ti tc : List String) (hs : List Nat) :
    ∀ (ref : List VarRow) (vs : List String) (row : VarRow), row ∈ ref →
      ¬ validRow row → row.tag ∈ vs → (refTags ref).Nodup →
      ∃ d, featuresLoop cat cf ti tc hs ref (some vs) =
        Except.error (FeatErr.unknownDataType d) := by
  intro ref
  induction ref with
  | nil =>
    intro vs row h
    exact absurd h (List.not_mem_nil row)
  | cons hd rest ih =>
    intro vs row hmem hbad htag hnd
    have hnd2 : (hd.tag :: refTags rest).Nodup := hnd
    rcases List.mem_cons.mp hmem with he | he
    · subst he
      refine ⟨row.dataType, ?_⟩
      simp only [featuresLoop, if_pos htag,
        rowNames_err_of_invalid cat cf ti tc hs row hbad]
    · by_cases hin : hd.tag ∈ vs
      · by_cases hvhd : validRow hd
        · obtain ⟨ns, hns⟩ := rowNames_ok_of_valid cat cf ti tc hs hd hvhd
          have htag2 : row.tag ∈ vs.erase hd.tag := by
            refine (List.mem_erase_of_ne ?_).mpr htag
            intro hcontra
            have : hd.tag ∈ refTags rest := by
              rw [← hcontra]
              exact List.mem_map.mpr ⟨row, he, rfl⟩
            exact (List.nodup_cons.mp hnd2).1 this
          obtain ⟨d, hdd⟩ :=
            ih (vs.erase hd.tag) row he hbad htag2 (List.nodup_cons.mp hnd2).2
          refine ⟨d, ?_⟩
          simp only [featuresLoop, if_pos hin, hns, hdd]
        · refine ⟨hd.dataType, ?_⟩
          simp only [featuresLoop, if_pos hin,
            rowNames_err_of_invalid cat cf ti tc hs hd hvhd]
      · obtain ⟨d, hdd⟩ := ih vs row he hbad htag (List.nodup_cons.mp hnd2).2
        refine ⟨d, ?_⟩
        simp only [featuresLoop, if_neg hin, hdd]

/-- Claim C5 (amended): a reference descriptor whose data type is not
one of the four known kinds makes features fail fast with the
unknown-data-type error, provided its variable type is not static (a
static descriptor is emitted before the data type is examined) and the
allow-list does not skip it. -/
theorem c5_unknown_data_type (ref : List VarRow) (vars : Option (List String))
    (cat cf ti tc : Option (List String)) (hs : Option (List Nat)) (row : VarRow)
    (hmem : row ∈ ref) (hvt : row.variableType ≠ "static")
    (hdt : row.dataType ∉ knownDataTypes)
    (hvars : vars = none ∨
      ∃ vs, vars = some vs ∧ row.tag ∈ vs ∧ (refTags ref).Nodup) :
    ∃ d, features ref vars cat cf ti tc hs =
      Except.error (FeatErr.unknownDataType d) := by
  have hbad : ¬ validRow row := by
    unfold validRow
    push_neg
    exact ⟨hvt, hdt⟩
  rcases hvars with h | ⟨vs, hvs, htag, hnd⟩
  · subst h
    obtain ⟨d, hd⟩ :=
      featuresLoop_none_err (cat.getD CATEGORICAL_FEATURES) (cf.getD CONTINUOUS_FEATURES)
        (ti.getD TREATMENT_INDICATOR_FEATURES) (tc.getD TREATMENT_CONTINUOUS_FEATURES)
        (hs.getD HORIZONS) ref ⟨row, hmem, hbad⟩
    refine ⟨d, ?_⟩
    simp only [features]
    rw [hd]
  · subst hvs
    obtain ⟨d, hd⟩ :=
      featuresLoop_some_err (cat.getD CATEGORICAL_FEATURES) (cf.getD CONTINUOUS_FEATURES)
        (ti.getD TREATMENT_INDICATOR_FEATURES) (tc.getD TREATMENT_CONTINUOUS_FEATURES)
        (hs.getD HORIZONS) ref vs row hmem hbad htag hnd
    refine ⟨d, ?_⟩
    simp only [features]
    rw [hd]

/-- Witness for c5_unknown_data_type: a non-static descriptor with data
type bogus fails with the unknown-data-type error. -/
theorem c5_unknown_data_type_witness :
    ∃ d, features [dynBogusRow] none none none none none none =
      Except.error (FeatErr.unknownDataType d) :=
  c5_unknown_data_type [dynBogusRow] none none none none none none dynBogusRow
    (by decide) (by decide) (by decide) (Or.inl rfl)

/-- Counterexample to claim C5 as frozen: a static descriptor with the
unknown data type bogus is silently emitted instead of raising, because
the static branch is checked before the data type. -/
theorem c5_counterexample :
    features [staticBogusRow] none none none none none none =
      Except.ok ["age", "time_hours"] := by
  rfl

/-- Over a valid reference, the scan succeeds and consumes at most one
occurrence of a tag t per reference row carrying t: the count of t left
in the allow list drops by at most the count of t among the reference
tags. -/
theorem featuresLoop_count (cat cf ti tc : List String) (hs : List Nat) (t : String) :
    ∀ (ref : List VarRow) (vs : List String), validRef ref →
      ∃ fs vs2, featuresLoop cat cf ti tc hs ref (some vs) = Except.ok (fs, some vs2) ∧
        vs.count t ≤ vs2.count t + (refTags ref).count t := by
  intro ref
  induction ref with
  | nil =>
    intro vs _
    exact ⟨[], vs, rfl, by simp [refTags]⟩
  | cons row rest ih =>
    intro vs hv
    have hvrest : validRef rest := fun r hr => hv r (by simp [hr])
    obtain ⟨ns, hns⟩ := rowNames_ok_of_valid cat cf ti tc hs row (hv row (by simp))
    have hcons : (refTags (row :: rest)).count t =
        (refTags rest).count t + (if row.tag == t then 1 else 0) := by
      show (row.tag :: refTags rest).count t = _
      rw [List.count_cons]
    by_cases hin : row.tag ∈ vs
    · obtain ⟨fs, vs2, hloop, hle⟩ := ih (vs.erase row.tag) hvrest
      refine ⟨ns ++ fs, vs2, ?_, ?_⟩
      · simp only [featuresLoop, if_pos hin, hns, hloop]
      · by_cases he : row.tag = t
        · have hpos : 0 < vs.count t := List.count_pos_iff.mpr (he ▸ hin)
          have herase : (vs.erase row.tag).count t = vs.count t - 1 := by
            rw [he, List.count_erase_self]
          rw [hcons, if_pos (by simp [he])]
          omega
        · have herase : (vs.erase row.tag).count t = vs.count t := by
            exact List.count_erase_of_ne (fun hh => he hh.symm) vs
          rw [hcons, if_neg (by simp [he])]
          omega
    · obtain ⟨fs, vs2, hloop, hle⟩ := ih vs hvrest
      refine ⟨fs, vs2, ?_, ?_⟩
      · simp only [featuresLoop, if_neg hin, hloop]
      · rw [hcons]
        omega

/-- Claim C10 (amended): when the allow-list contains a reference tag t
at least twice, with t not the special name time_hours, unique reference
tags and a valid reference, only one occurrence is consumed by the scan
and features raises the unknown-variables error on a leftover list still
containing t. A duplicated time_hours tag is the exception: its second
occurrence is consumed by the final time_hours step, see the
counterexample. -/
theorem c10_duplicate_allowlist (ref : List VarRow) (vs : List String)
    (cat cf ti tc : Option (List String)) (hs : Option (List Nat)) (t : String)
    (hv : validRef ref) (hnd : (refTags ref).Nodup) (ht : t ∈ refTags ref)
    (hth : t ≠ "time_hours") (hcount : 2 ≤ vs.count t) :
    ∃ L, features ref (some vs) cat cf ti tc hs =
      Except.error (FeatErr.unknownVariables L) ∧ t ∈ L := by
  obtain ⟨fs, vs2, hloop, hle⟩ :=
    featuresLoop_count (cat.getD CATEGORICAL_FEATURES) (cf.getD CONTINUOUS_FEATURES)
      (ti.getD TREATMENT_INDICATOR_FEATURES) (tc.getD TREATMENT_CONTINUOUS_FEATURES)
      (hs.getD HORIZONS) t ref vs hv
  have h1 : (refTags ref).count t = 1 := List.count_eq_one_of_mem hnd ht
  have hmem2 : t ∈ vs2 := List.count_pos_iff.mp (by omega)
  simp only [features]
  rw [hloop]
  dsimp only
  by_cases hth2 : "time_hours" ∈ vs2
  · have hmem3 : t ∈ vs2.erase "time_hours" := (List.mem_erase_of_ne hth).mpr hmem2
    refine ⟨vs2.erase "time_hours", ?_, hmem3⟩
    rw [if_pos hth2, if_neg (List.ne_nil_of_mem hmem3)]
  · refine ⟨vs2, ?_, hmem2⟩
    rw [if_neg hth2, if_neg (List.ne_nil_of_mem hmem2)]

/-- Witness for c10_duplicate_allowlist: the tag hr requested twice over
a reference containing hr once yields the unknown-variables error with
hr still listed. -/
theorem c10_duplicate_allowlist_witness :
    ∃ L, features [hrRow] (some ["hr", "hr"]) none none none none none =
      Except.error (FeatErr.unknownVariables L) ∧ "hr" ∈ L :=
  c10_duplicate_allowlist [hrRow] ["hr", "hr"] none none none none none "hr"
    (by decide) (by decide) (by decide) (by decide) (by decide)

/-- Counterexample to claim C10 as frozen: a reference whose tag is the
special name time_hours, requested twice, raises no error at all — the
scan consumes one occurrence and the final time_hours step consumes the
other. -/
theorem c10_counterexample :
    features [timeHoursRow] (some ["time_hours", "time_hours"]) none none none none none =
      Except.ok ["time_hours", "time_hours"] := by
  rfl

/-! ## Helper lemmas about the loader -/

/-- features tolerates resolving the horizons default before or after
the call, as load does on line 79-80 before passing horizons down. -/
theorem features_horizons_getD (ref : List VarRow) (vars : Option (List String))
    (cat cf ti tc : Option (List String)) (hs : Option (List Nat)) :
    features ref vars cat cf ti tc (some (hs.getD HORIZONS)) =
      features ref vars cat cf ti tc hs := by
  cases hs <;> rfl

/-- Projecting a row onto a column list preserves the value of every
column in the list. -/
theorem Row.get_restrict (r : Row) (cs : List String) (c : String) (hc : c ∈ cs) :
    (r.restrict cs).get c = r.get c := by
  unfold Row.restrict Row.get
  induction cs with
  | nil => exact absurd hc (List.not_mem_nil c)
  | cons a tl ih =>
    by_cases hac : a = c
    · subst hac
      simp [List.lookup]
    · have hc2 : c ∈ tl := by
        rcases List.mem_cons.mp hc with he | he
        · exact absurd he.symm hac
        · exact he
      have hbeq : (c == a) = false := beq_false_of_ne (fun he => hac he.symm)
      simp only [List.map_cons, List.lookup, hbeq]
      exact ih hc2

/-- Every value of the outcome column of the filtered, projected and
sorted rows is non-null, because the row filter keeps only rows whose
outcome cell is non-null and the projection covers the outcome column. -/
theorem all_outcomes_nonnull (outcome : String) (sp : Option (ℚ → Bool))
    (rs : List Row) (ctl : List String) (hc : outcome ∈ ctl) :
    ((List.insertionSort (fun a b => rowLE a b = true)
        ((rs.filter (rowFilter outcome sp)).map (fun r => r.restrict ctl))).map
      (fun r => r.get outcome)).all (fun c => decide (c ≠ Cell.null)) = true := by
  rw [List.all_eq_true]
  intro c hcmem
  obtain ⟨r, hr, rfl⟩ := List.mem_map.mp hcmem
  have hr1 : r ∈ (rs.filter (rowFilter outcome sp)).map (fun r => r.restrict ctl) :=
    ((List.perm_insertionSort _ _).mem_iff).mp hr
  obtain ⟨r0, hr0, rfl⟩ := List.mem_map.mp hr1
  have hfil := (List.mem_filter.mp hr0).2
  unfold rowFilter at hfil
  simp only [Bool.and_eq_true] at hfil
  rw [Row.get_restrict r0 ctl outcome hc]
  exact hfil.1

/-- The split resolution step only ever fails with the invalid-split
error. -/
theorem splitResolve_not_assert (split : Option String) (e : LoadErr)
    (he : splitResolve split = Except.error e) : e ≠ LoadErr.assertFailed := by
  cases split with
  | none => simp [splitResolve] at he
  | some s =>
    simp only [splitResolve] at he
    cases hf : splitFilter s with
    | some p =>
      rw [hf] at he
      simp at he
    | none =>
      rw [hf] at he
      simp only [Except.error.injEq] at he
      rw [← he]
      intro hcontra
      cases hcontra

/-- Claim C2: whenever load succeeds, the columns of the returned
feature table are exactly the list produced by features with the same
variables, feature-kind and horizon arguments, in the order produced by
the generator;
the outcome, identifier, sort and other columns added for reading never
leak into the feature table. -/
theorem load_feature_columns (ref : List VarRow) (tables : List (List Row))
    (outcome : String) (split : Option String) (vars : Option (List String))
    (cat cf ti tc : Option (List String)) (hs : Option (List Nat))
    (oc : Option (List String)) (out : LoadResult)
    (h : load ref tables outcome split vars cat cf ti tc hs oc = Except.ok out) :
    features ref vars cat cf ti tc hs = Except.ok out.X.cols := by
  rw [← features_horizons_getD ref vars cat cf ti tc hs]
  unfold load at h
  cases hsp : splitResolve split with
  | error e =>
    simp only [hsp] at h
    exact Except.noConfusion h
  | ok sp =>
    simp only [hsp] at h
    cases hf : features ref vars cat cf ti tc (some (hs.getD HORIZONS)) with
    | error e =>
      simp only [hf] at h
      exact Except.noConfusion h
    | ok columns =>
      simp only [hf] at h
      split at h <;> split at h
      · injection h with h2
        subst h2
        rfl
      · exact Except.noConfusion h
      · injection h with h2
        subst h2
        rfl
      · exact Except.noConfusion h

/-- Witness for load_feature_columns on a one-row table with a static
age variable and outcome y. -/
theorem load_feature_columns_witness :
    features [ageRow] none none none none none none = Except.ok sampleOut.X.cols :=
  load_feature_columns [ageRow] [[sampleRow]] "y" none none none none none none none none
    sampleOut (by rfl)

/-- Claim C6: the row filter already guarantees that the extracted
outcome vector has no missing values, so the assertion checked after
extraction never fires: load never returns the assertion failure. -/
theorem load_outcome_never_missing (ref : List VarRow) (tables : List (List Row))
    (outcome : String) (split : Option String) (vars : Option (List String))
    (cat cf ti tc : Option (List String)) (hs : Option (List Nat))
    (oc : Option (List String)) :
    load ref tables outcome split vars cat cf ti tc hs oc ≠
      Except.error LoadErr.assertFailed := by
  intro h
  unfold load at h
  cases hsp : splitResolve split with
  | error e =>
    simp only [hsp] at h
    have he : e = LoadErr.assertFailed := by
      simpa using h
    exact splitResolve_not_assert split e hsp he
  | ok sp =>
    simp only [hsp] at h
    cases hf : features ref vars cat cf ti tc (some (hs.getD HORIZONS)) with
    | error e =>
      simp only [hf] at h
      injection h with h2
      exact LoadErr.noConfusion h2
    | ok columns =>
      simp only [hf] at h
      split at h
      · rw [if_pos (all_outcomes_nonnull outcome sp (tables.flatMap (fun t => t)) _
          (by simp))] at h
        exact Except.noConfusion h
      · rw [if_pos (all_outcomes_nonnull outcome sp (tables.flatMap (fun t => t)) _
          (by simp))] at h
        exact Except.noConfusion h

/-- Witness for load_outcome_never_missing at the sample one-row call. -/
theorem load_outcome_never_missing_witness :
    load [ageRow] [[sampleRow]] "y" none none none none none none none none ≠
      Except.error LoadErr.assertFailed :=
  load_outcome_never_missing [ageRow] [[sampleRow]] "y" none none none none none none none none

/-! ## Frame property of the allow-list bookkeeping -/

/-- Writing one heap cell leaves every other cell unchanged. -/
theorem Heap.read_write_ne (h : Heap) (b i : Nat) (v : List String) (hne : i ≠ b) :
    (h.write b v).read i = h.read i := by
  unfold Heap.read Heap.write
  rw [List.getElem?_set_ne (Ne.symm hne)]

/-- The scan of the heap-model generator writes only to the cell holding
the copied allow-list. -/
theorem featuresLoopH_frame (cat cf ti tc : List String) (hs : List Nat) :
    ∀ (ref : List VarRow) (b : Nat) (h : Heap) (i : Nat), i ≠ b →
      ((featuresLoopH cat cf ti tc hs ref (some b) h).2).read i = h.read i := by
  intro ref
  induction ref with
  | nil =>
    intro b h i _
    rfl
  | cons row rest ih =>
    intro b h i hne
    by_cases hin : row.tag ∈ h.read b
    · cases hrn : rowNames cat cf ti tc hs row with
      | error e =>
        simp only [featuresLoopH, if_pos hin, hrn]
        exact Heap.read_write_ne h b i _ hne
      | ok ns =>
        simp only [featuresLoopH, if_pos hin, hrn]
        exact (ih b (h.write b ((h.read b).erase row.tag)) i hne).trans
          (Heap.read_write_ne h b i _ hne)
    · simp only [featuresLoopH, if_neg hin]
      exact ih b h i hne

/-- Claim C9: the feature-name generator never mutates the caller list:
whether it returns or raises, every heap cell that existed before the
call, in particular the cell holding the caller allow-list, still holds
exactly the elements it held before, in the same order. The
consume-and-check bookkeeping writes only to the freshly allocated
copy. -/
theorem featuresH_no_mutation (ref : List VarRow) (a : Nat)
    (cat cf ti tc : Option (List String)) (hs : Option (List Nat))
    (h : Heap) (i : Nat) (hi : i < h.length) :
    ((featuresH ref (some a) cat cf ti tc hs h).2).read i = h.read i := by
  have hneb : i ≠ h.length := Nat.ne_of_lt hi
  have halloc : (h ++ [h.read a]).read i = h.read i := by
    unfold Heap.read
    rw [List.getElem?_append]
    rw [if_pos hi]
  have hloop := featuresLoopH_frame (cat.getD CATEGORICAL_FEATURES)
    (cf.getD CONTINUOUS_FEATURES) (ti.getD TREATMENT_INDICATOR_FEATURES)
    (tc.getD TREATMENT_CONTINUOUS_FEATURES) (hs.getD HORIZONS) ref h.length
    (h ++ [h.read a]) i hneb
  unfold featuresH Heap.alloc
  dsimp only
  cases hp : featuresLoopH (cat.getD CATEGORICAL_FEATURES) (cf.getD CONTINUOUS_FEATURES)
      (ti.getD TREATMENT_INDICATOR_FEATURES) (tc.getD TREATMENT_CONTINUOUS_FEATURES)
      (hs.getD HORIZONS) ref (some h.length) (h ++ [h.read a]) with
  | mk res h2 =>
    rw [hp] at hloop
    have h2read : h2.read i = h.read i := hloop.trans halloc
    cases res with
    | error e =>
      simpa using h2read
    | ok fs =>
      by_cases hth : "time_hours" ∈ h2.read h.length
      · simp only [if_pos hth]
        by_cases hemp :
            (h2.write h.length ((h2.read h.length).erase "time_hours")).read h.length = []
        · simp only [if_pos hemp]
          exact (Heap.read_write_ne h2 h.length i _ hneb).trans h2read
        · simp only [if_neg hemp]
          exact (Heap.read_write_ne h2 h.length i _ hneb).trans h2read
      · simp only [if_neg hth]
        by_cases hemp : h2.read h.length = []
        · simp only [if_pos hemp]
          exact h2read
        · simp only [if_neg hemp]
          exact h2read

/-- Witness for featuresH_no_mutation: the caller cell holding the list
with the single tag age is unchanged by the call. -/
theorem featuresH_no_mutation_witness :
    ((featuresH [ageRow] (some 0) none none none none none sampleHeap).2).read 0 =
      sampleHeap.read 0 :=
  featuresH_no_mutation [ageRow] 0 none none none none none sampleHeap 0 (by decide)

/-! ## Properties of the diagnosis-block pipeline -/

theorem charListLe_total : ∀ u v : List Char,
    charListLe u v = true ∨ charListLe v u = true := by
  intro u
  induction u with
  | nil =>
    intro v
    left
    rfl
  | cons c cs ih =>
    intro v
    cases v with
    | nil =>
      right
      rfl
    | cons d ds =>
      by_cases hcd : c.toNat = d.toNat
      · rcases ih ds with h | h
        · left
          simp [charListLe, hcd, h]
        · right
          simp [charListLe, hcd.symm, h]
      · rcases Nat.lt_or_ge c.toNat d.toNat with h | h
        · left
          simp [charListLe, hcd, h]
        · have hlt : d.toNat < c.toNat := Nat.lt_of_le_of_ne h (fun he => hcd he.symm)
          have hdc : d.toNat ≠ c.toNat := Nat.ne_of_lt hlt
          right
          simp [charListLe, hdc, hlt]

theorem charListLe_trans : ∀ u v w : List Char,
    charListLe u v = true → charListLe v w = true → charListLe u w = true := by
  intro u
  induction u with
  | nil =>
    intro v w _ _
    rfl
  | cons c cs ih =>
    intro v w huv hvw
    cases v with
    | nil => simp [charListLe] at huv
    | cons d ds =>
      cases w with
      | nil => simp [charListLe] at hvw
      | cons e es =>
        by_cases hcd : c.toNat = d.toNat <;> by_cases hde : d.toNat = e.toNat
        · simp only [charListLe, if_pos hcd] at huv
          simp only [charListLe, if_pos hde] at hvw
          simp only [charListLe, if_pos (hcd.trans hde)]
          exact ih ds es huv hvw
        · simp only [charListLe, if_pos hcd] at huv
          simp only [charListLe, if_neg hde, decide_eq_true_eq] at hvw
          have hce : c.toNat ≠ e.toNat := by omega
          simp only [charListLe, if_neg hce, decide_eq_true_eq]
          omega
        · simp only [charListLe, if_neg hcd, decide_eq_true_eq] at huv
          simp only [charListLe, if_pos hde] at hvw
          have hce : c.toNat ≠ e.toNat := by omega
          simp only [charListLe, if_neg hce, decide_eq_true_eq]
          omega
        · simp only [charListLe, if_neg hcd, decide_eq_true_eq] at huv
          simp only [charListLe, if_neg hde, decide_eq_true_eq] at hvw
          have hce : c.toNat ≠ e.toNat := by omega
          simp only [charListLe, if_neg hce, decide_eq_true_eq]
          omega

theorem blockList_nodup (f : String → String) (s : List String) :
    (blockList f s).Nodup :=
  ((List.perm_insertionSort _ _).nodup_iff).mpr ((List.nodup_dedup _).filter _)

theorem blockList_sorted (f : String → String) (s : List String) :
    (blockList f s).Sorted (fun a b => strLe a b = true) := by
  haveI : IsTotal String (fun a b => strLe a b = true) :=
    ⟨fun a b => charListLe_total a.data b.data⟩
  haveI : IsTrans String (fun a b => strLe a b = true) :=
    ⟨fun a b c h1 h2 => charListLe_trans a.data b.data c.data h1 h2⟩
  exact List.sorted_insertionSort _ _

theorem blockList_mem (f : String → String) (s : List String) (z : String) :
    z ∈ blockList f s ↔ (z ≠ "" ∧ z ∈ s.map f) := by
  unfold blockList
  rw [(List.perm_insertionSort _ _).mem_iff, List.mem_filter, List.mem_dedup]
  constructor
  · rintro ⟨h1, h2⟩
    exact ⟨of_decide_eq_true h2, h1⟩
  · rintro ⟨h1, h2⟩
    exact ⟨h2, decide_eq_true h1⟩

/-- Claim C7 (amended): the combined diagnosis-block column is the
concatenation of the ICD10-origin block list and the ICD9-origin block
list; each of the two lists separately is deduplicated, sorted, and
holds exactly the non-empty mapped blocks of its origin code list, but
deduplication and sortedness are not guaranteed across the concatenation
boundary. -/
theorem c7_combined_blocks (m : Mapper) (l10 l9 : List String) :
    combinedBlocks m l10 l9 = icd10BlocksColumn m l10 ++ icd9BlocksColumn m l9 ∧
    (icd10BlocksColumn m l10).Nodup ∧
    (icd10BlocksColumn m l10).Sorted (fun a b => strLe a b = true) ∧
    (icd9BlocksColumn m l9).Nodup ∧
    (icd9BlocksColumn m l9).Sorted (fun a b => strLe a b = true) ∧
    (∀ z, z ∈ icd10BlocksColumn m l10 ↔ (z ≠ "" ∧ z ∈ l10.map (icd10_blocks m))) ∧
    (∀ z, z ∈ icd9BlocksColumn m l9 ↔ (z ≠ "" ∧ z ∈ l9.map (icd9_blocks m))) :=
  ⟨rfl, blockList_nodup _ _, blockList_sorted _ _, blockList_nodup _ _,
    blockList_sorted _ _, fun z => blockList_mem _ _ z, fun z => blockList_mem _ _ z⟩

/-- Counterexample to claim C7 as frozen: with a mapping table sending
the ICD10 code A00 to block B1 and the ICD9 code 001 to A00 and hence to
the same block B1, the combined column is the list B1, B1, which is not
deduplicated. -/
theorem c7_counterexample :
    ¬ (combinedBlocks mEx ["A00"] ["001"]).Nodup := by
  decide

/-- Claim C8: icd9_blocks maps ICD9 to ICD10, retries with the dots
removed when the first lookup misses, then maps the obtained ICD10 code
to a block, returning the block on success and the empty string when any
lookup, including the retry, misses — the specification restated as
icd9_to_block_spec. -/
theorem c8_icd9_to_block (m : Mapper) (x : String) :
    icd9_blocks m x = icd9_to_block_spec m x := by
  unfold icd9_blocks icd9_to_block_spec
  cases h : m.map x "icd9" "icd10" with
  | none => simp [h, Option.orElse]
  | some c => simp [h, Option.orElse]

end IcuFeatures
